import Mathlib

/-!
Verification of the `illu-string_of_bytes` native shim (`src/stub.c`) against its
specification.  The shim exposes two functions:

  * `illusory0x0_moonbit_set_array_header(array, meta)` — writes the 32-bit header
    word `meta` at the object's fixed header offset (via `Moonbit_object_header`);
  * `illusory0x0_moonbit_make_array_header(kind, elem_size_shift, length)` — pure
    construction of a packed header, delegating to `Moonbit_make_array_header`.

The bodies of `Moonbit_make_array_header` and `Moonbit_object_header` live in the
host runtime header `moonbit.h`, which is not part of this repository's sources;
the codec below is therefore modelled from the specification's description
(HeaderCodec with the example bit layout: kind in bits [0:8), elem_size_shift in
bits [8:11), length in bits [11:32)).  Memory is modelled as a byte-addressed map
`Nat → Nat`, the header word stored little-endian at a fixed offset.
-/

namespace StringOfBytes

/-- Modelled from the spec: error taxonomy of the header construction service
(`InvalidKind`, `FieldOverflow`); the codec is pure so errors are return-based. -/
inductive HeaderError where
  | FieldOverflow
  | InvalidKind
deriving DecidableEq

/-- Modelled from the spec: number of bits of the `kind` field (bits [0:8)). -/
def kindBits : Nat := 8

/-- Modelled from the spec: number of bits of the `elem_size_shift` field (bits [8:11)). -/
def shiftBits : Nat := 3

/-- Modelled from the spec: total width of the packed header word (a `uint32_t`). -/
def headerWidth : Nat := 32

/-- Modelled from the spec: number of bits of the `length` field (bits [11:32)). -/
def lengthBits : Nat := 21

/-- Modelled from the spec: the closed, runtime-defined enumeration of kind tags;
the spec lists exactly three runtime shapes (boxed array of pointers, raw byte
array, pointer-free array of fixed-size elements), so the model uses tags 0..2. -/
def kindCount : Int := 3

/-- Capacity of the `elem_size_shift` field: `2 ^ shiftBits = 8`. -/
def shiftCap : Int := 8

/-- Capacity of the `length` field: `2 ^ lengthBits = 2097152`. -/
def lengthCap : Int := 2097152

theorem shiftCap_eq_pow : shiftCap = (2 : Int) ^ shiftBits := by
  norm_num [shiftCap, shiftBits]

theorem lengthCap_eq_pow : lengthCap = (2 : Int) ^ lengthBits := by
  norm_num [lengthCap, lengthBits]

/-- Modelled from the spec: `HeaderCodec.encode` — packs `(kind, elem_size_shift,
length)` into disjoint bit ranges of one 32-bit word (kind at bit 0, shift at
bit 8, length at bit 11); fails with `InvalidKind` for a tag outside the closed
enumeration and with `FieldOverflow` when `elem_size_shift` or `length` exceeds
its reserved bits.  Inputs are `int32` values, hence `Int`. -/
def encode (kind elem_size_shift length : Int) : Except HeaderError Nat :=
  if 0 ≤ kind ∧ kind < kindCount then
    if 0 ≤ elem_size_shift ∧ elem_size_shift < shiftCap ∧ 0 ≤ length ∧ length < lengthCap then
      .ok (kind.toNat + elem_size_shift.toNat * 256 + length.toNat * 2048)
    else .error .FieldOverflow
  else .error .InvalidKind

/-- Modelled from the spec: `HeaderCodec.decode` — the inverse of `encode`, total
over every bit pattern of the packed word: extracts `(kind, elem_size_shift,
length)` from bits [0:8), [8:11) and [11:32). -/
def decode (packed : Nat) : Nat × Nat × Nat :=
  (packed % 256, packed / 256 % 8, packed / 2048 % 2097152)

/-- Reinterpretation of a packed `Nat` below `2^32` as the C `int32_t` return
value of `Moonbit_make_array_header` (two's complement). -/
def int32OfNat (n : Nat) : Int :=
  if n < 2147483648 then (n : Int) else (n : Int) - 4294967296

/-- Conversion of an `int32_t` value to the `uint32_t` bit pattern it denotes,
as performed implicitly when the result of `make_array_header` is passed as the
`meta` argument of `set_array_header`. -/
def uint32OfInt32 (i : Int) : Nat := (i % 4294967296).toNat

/-- Embedding of `illusory0x0_moonbit_make_array_header` (src/stub.c, lines
10-12): a pure delegation to the runtime's `Moonbit_make_array_header`, itself
modelled from the spec as `HeaderCodec.encode`; the C signature returns an
`int32_t`, so the packed bits are reinterpreted as a signed 32-bit value. -/
def illusory0x0_moonbit_make_array_header (kind elem_size_shift length : Int) :
    Except HeaderError Int :=
  (encode kind elem_size_shift length).map int32OfNat

/-- Byte-addressed memory: address to byte value. -/
def Mem : Type := Nat → Nat

/-- Modelled from the spec: the fixed offset of the header word inside an
object's memory region (`Moonbit_object_header` resolves the object base; the
header word sits at this fixed offset from it). -/
def headerOffset : Nat := 0

/-- Embedding of `illusory0x0_moonbit_set_array_header` (src/stub.c, lines 5-8):
`obj->meta = meta;` — stores the 32-bit word `meta` little-endian at the
object's header offset, leaving every other byte of memory unchanged.  The
`uint32_t` parameter is modelled by reducing `meta` modulo `2^32`. -/
def illusory0x0_moonbit_set_array_header (mem : Mem) (base : Nat) (meta : Nat) : Mem :=
  fun a =>
    if a = base + headerOffset then meta % 4294967296 % 256
    else if a = base + headerOffset + 1 then meta % 4294967296 / 256 % 256
    else if a = base + headerOffset + 2 then meta % 4294967296 / 65536 % 256
    else if a = base + headerOffset + 3 then meta % 4294967296 / 16777216 % 256
    else mem a

/-- Reads the 32-bit header word (little-endian) back from memory. -/
def readHeaderWord (mem : Mem) (base : Nat) : Nat :=
  mem (base + headerOffset) + 256 * mem (base + headerOffset + 1) +
    65536 * mem (base + headerOffset + 2) + 16777216 * mem (base + headerOffset + 3)

/-- Modelled from the spec: the compiler-generated allocation sequence — compute
the header first with `make_array_header`; only on success is memory obtained
and the header stamped in with `set_array_header`.  On failure the memory state
is returned untouched. -/
def allocArray (mem : Mem) (base : Nat) (kind elem_size_shift length : Int) :
    Except HeaderError Unit × Mem :=
  match illusory0x0_moonbit_make_array_header kind elem_size_shift length with
  | .error e => (.error e, mem)
  | .ok h => (.ok (), illusory0x0_moonbit_set_array_header mem base (uint32OfInt32 h))

theorem encode_ok_lt {kind elem_size_shift length : Int} {p : Nat}
    (h : encode kind elem_size_shift length = .ok p) : p < 4294967296 := by
  unfold encode at h
  split at h
  · split at h
    · rename_i hk hsl
      injection h with h
      obtain ⟨hk0, hk1⟩ := hk
      obtain ⟨hs0, hs1, hl0, hl1⟩ := hsl
      unfold kindCount at hk1
      unfold shiftCap at hs1
      unfold lengthCap at hl1
      omega
    · exact absurd h (by simp)
  · exact absurd h (by simp)

/-- C1: for every (kind, elem_size_shift, length) with each field within its
reserved bit-field bounds, decoding the packed header produced by `encode`
returns exactly the same tuple. -/
theorem C1_roundtrip (k s l : Int)
    (hk : 0 ≤ k ∧ k < kindCount)
    (hsl : 0 ≤ s ∧ s < shiftCap ∧ 0 ≤ l ∧ l < lengthCap) :
    ∃ p, encode k s l = .ok p ∧ decode p = (k.toNat, s.toNat, l.toNat) := by
  refine ⟨k.toNat + s.toNat * 256 + l.toNat * 2048, ?_, ?_⟩
  · unfold encode
    rw [if_pos hk, if_pos hsl]
  · obtain ⟨hk0, hk1⟩ := hk
    obtain ⟨hs0, hs1, hl0, hl1⟩ := hsl
    unfold kindCount at hk1
    unfold shiftCap at hs1
    unfold lengthCap at hl1
    simp only [decode, Prod.mk.injEq]
    refine ⟨?_, ?_, ?_⟩ <;> omega

theorem C1_roundtrip_witness :
    ∃ p, encode 2 3 5 = .ok p ∧
      decode p = ((2 : Int).toNat, (3 : Int).toNat, (5 : Int).toNat) :=
  C1_roundtrip 2 3 5 (by decide) (by decide)

/-- C2: `encode` (and `make_array_header`, which propagates the error unchanged)
fails with `FieldOverflow` whenever `length` or `elem_size_shift` exceeds its
reserved bits — in particular for every `length ≥ lengthCap`, the value one past
the maximum — and succeeds when `length` equals the maximum `lengthCap - 1`. -/
theorem C2_overflow_rejection (k s : Int)
    (hk : 0 ≤ k ∧ k < kindCount) (hs : 0 ≤ s ∧ s < shiftCap) :
    (∃ p, encode k s (lengthCap - 1) = .ok p) ∧
    (∀ l, lengthCap ≤ l → encode k s l = .error .FieldOverflow ∧
      illusory0x0_moonbit_make_array_header k s l = .error .FieldOverflow) ∧
    (∀ s', shiftCap ≤ s' → ∀ l, encode k s' l = .error .FieldOverflow) := by
  refine ⟨⟨k.toNat + s.toNat * 256 + (lengthCap - 1).toNat * 2048, ?_⟩, ?_, ?_⟩
  · have hcond : 0 ≤ s ∧ s < shiftCap ∧ 0 ≤ lengthCap - 1 ∧ lengthCap - 1 < lengthCap :=
      ⟨hs.1, hs.2, by decide, by decide⟩
    unfold encode
    rw [if_pos hk, if_pos hcond]
  · intro l hl
    have hnot : ¬(0 ≤ s ∧ s < shiftCap ∧ 0 ≤ l ∧ l < lengthCap) := fun hc =>
      absurd hc.2.2.2 (not_lt.mpr hl)
    constructor
    · unfold encode
      rw [if_pos hk, if_neg hnot]
    · unfold illusory0x0_moonbit_make_array_header encode
      rw [if_pos hk, if_neg hnot]
      rfl
  · intro s' hs' l
    have hnot : ¬(0 ≤ s' ∧ s' < shiftCap ∧ 0 ≤ l ∧ l < lengthCap) := fun hc =>
      absurd hc.2.1 (not_lt.mpr hs')
    unfold encode
    rw [if_pos hk, if_neg hnot]

theorem C2_overflow_rejection_witness :
    illusory0x0_moonbit_make_array_header 2 3 2097152 = .error .FieldOverflow ∧
    (∃ p, encode 2 3 (lengthCap - 1) = .ok p) :=
  ⟨((C2_overflow_rejection 2 3 (by decide) (by decide)).2.1 2097152 (by decide)).2,
   (C2_overflow_rejection 2 3 (by decide) (by decide)).1⟩

/-- C3: `encode` (and `make_array_header`) fails with `InvalidKind` for every
kind value outside the closed enumeration of kind tags, and succeeds for the
maximum valid tag `kindCount - 1` (given in-range shift and length). -/
theorem C3_kind_rejection :
    (∀ k, ¬(0 ≤ k ∧ k < kindCount) → ∀ s l,
      encode k s l = .error .InvalidKind ∧
      illusory0x0_moonbit_make_array_header k s l = .error .InvalidKind) ∧
    (∀ s l, 0 ≤ s ∧ s < shiftCap → 0 ≤ l ∧ l < lengthCap →
      ∃ p, encode (kindCount - 1) s l = .ok p) := by
  constructor
  · intro k hk s l
    constructor
    · unfold encode
      rw [if_neg hk]
    · unfold illusory0x0_moonbit_make_array_header encode
      rw [if_neg hk]
      rfl
  · intro s l hs hl
    have hk : 0 ≤ kindCount - 1 ∧ kindCount - 1 < kindCount := by decide
    refine ⟨(kindCount - 1).toNat + s.toNat * 256 + l.toNat * 2048, ?_⟩
    unfold encode
    rw [if_pos hk, if_pos ⟨hs.1, hs.2, hl.1, hl.2⟩]

theorem C3_kind_rejection_witness :
    illusory0x0_moonbit_make_array_header (-1) 0 0 = .error .InvalidKind ∧
    (∃ p, encode (kindCount - 1) 0 0 = .ok p) :=
  ⟨(C3_kind_rejection.1 (-1) (by decide) 0 0).2,
   C3_kind_rejection.2 0 0 (by decide) (by decide)⟩

/-- C4: with the example layout, `make_array_header 2 3 5` returns the packed
value `2 ||| (3 <<< 8) ||| (5 <<< 11)` (as an `int32`), and decoding that value
returns `(2, 3, 5)`. -/
theorem C4_example :
    illusory0x0_moonbit_make_array_header 2 3 5 =
      .ok ((((2 : Nat) ||| (3 <<< 8) ||| (5 <<< 11)) : Nat) : Int) ∧
    decode ((2 : Nat) ||| (3 <<< 8) ||| (5 <<< 11)) = (2, 3, 5) := by
  constructor <;> rfl

/-- C5: for every `uint32` value `meta`, `set_array_header` writes exactly
`meta` at the header word — reading the header word back yields `meta` — and no
byte outside the 4-byte header word is altered. -/
theorem C5_set_array_header_spec (mem : Mem) (base meta : Nat)
    (h : meta < 4294967296) :
    readHeaderWord (illusory0x0_moonbit_set_array_header mem base meta) base = meta ∧
    ∀ a, a < base + headerOffset ∨ base + headerOffset + 4 ≤ a →
      illusory0x0_moonbit_set_array_header mem base meta a = mem a := by
  have h0 : illusory0x0_moonbit_set_array_header mem base meta (base + headerOffset) =
      meta % 4294967296 % 256 := by
    simp [illusory0x0_moonbit_set_array_header]
  have h1 : illusory0x0_moonbit_set_array_header mem base meta (base + headerOffset + 1) =
      meta % 4294967296 / 256 % 256 := by
    simp only [illusory0x0_moonbit_set_array_header, headerOffset]
    rw [if_neg (by omega)]
    simp
  have h2 : illusory0x0_moonbit_set_array_header mem base meta (base + headerOffset + 2) =
      meta % 4294967296 / 65536 % 256 := by
    simp only [illusory0x0_moonbit_set_array_header, headerOffset]
    rw [if_neg (by omega), if_neg (by omega)]
    simp
  have h3 : illusory0x0_moonbit_set_array_header mem base meta (base + headerOffset + 3) =
      meta % 4294967296 / 16777216 % 256 := by
    simp only [illusory0x0_moonbit_set_array_header, headerOffset]
    rw [if_neg (by omega), if_neg (by omega), if_neg (by omega)]
    simp
  constructor
  · unfold readHeaderWord
    rw [h0, h1, h2, h3]
    omega
  · intro a ha
    simp only [headerOffset] at ha
    simp only [illusory0x0_moonbit_set_array_header, headerOffset]
    rw [if_neg (by omega), if_neg (by omega), if_neg (by omega), if_neg (by omega)]

theorem C5_set_array_header_spec_witness :
    readHeaderWord
      (illusory0x0_moonbit_set_array_header ((fun _ => 0) : Mem) 64 3735928559) 64 =
      3735928559 :=
  (C5_set_array_header_spec ((fun _ => 0) : Mem) 64 3735928559 (by norm_num)).1

/-- C6: `make_array_header` is pure (the allocation sequence computes it before
any memory write), and when `length` exceeds the field's capacity the whole
construction fails with `FieldOverflow` with the memory state returned exactly
as it was — no memory is touched. -/
theorem C6_failure_atomicity (mem : Mem) (base : Nat) (k s l : Int)
    (hk : 0 ≤ k ∧ k < kindCount) (hs : 0 ≤ s ∧ s < shiftCap) (hl : lengthCap ≤ l) :
    allocArray mem base k s l = (.error .FieldOverflow, mem) ∧
    illusory0x0_moonbit_make_array_header k s l = .error .FieldOverflow := by
  have hnot : ¬(0 ≤ s ∧ s < shiftCap ∧ 0 ≤ l ∧ l < lengthCap) := fun hc =>
    absurd hc.2.2.2 (not_lt.mpr hl)
  have hmk : illusory0x0_moonbit_make_array_header k s l = .error .FieldOverflow := by
    unfold illusory0x0_moonbit_make_array_header encode
    rw [if_pos hk, if_neg hnot]
    rfl
  refine ⟨?_, hmk⟩
  unfold allocArray
  rw [hmk]

theorem C6_failure_atomicity_witness :
    allocArray ((fun _ => 0) : Mem) 0 2 3 2097152 =
      (.error .FieldOverflow, ((fun _ => 0) : Mem)) :=
  (C6_failure_atomicity ((fun _ => 0) : Mem) 0 2 3 2097152
    (by decide) (by decide) (by decide)).1

/-- C7: two calls to `make_array_header` with identical inputs produce
bit-identical outputs. -/
theorem C7_determinism (k1 s1 l1 k2 s2 l2 : Int)
    (hk : k1 = k2) (hs : s1 = s2) (hl : l1 = l2) :
    illusory0x0_moonbit_make_array_header k1 s1 l1 =
      illusory0x0_moonbit_make_array_header k2 s2 l2 := by
  rw [hk, hs, hl]

theorem C7_determinism_witness :
    illusory0x0_moonbit_make_array_header 2 3 5 =
      illusory0x0_moonbit_make_array_header 2 3 5 :=
  C7_determinism 2 3 5 2 3 5 rfl rfl rfl

/-- C8: `decode` is total — it never fails, and every bit pattern of the 32-bit
packed word decodes to some (kind, elem_size_shift, length) tuple, each
component within its field's range (the kind possibly unused/reserved). -/
theorem C8_decode_total (p : Nat) (hp : p < 4294967296) :
    ∃ k s l, decode p = (k, s, l) ∧ k < 256 ∧ s < 8 ∧ l < 2097152 := by
  refine ⟨p % 256, p / 256 % 8, p / 2048 % 2097152, rfl, ?_, ?_, ?_⟩ <;> omega

theorem C8_decode_total_witness :
    ∃ k s l, decode 4294967295 = (k, s, l) ∧ k < 256 ∧ s < 8 ∧ l < 2097152 :=
  C8_decode_total 4294967295 (by norm_num)

/-- C9: `set_array_header` is last-write-wins — writing `m1` then `m2` leaves
the memory in exactly the state of writing `m2` alone — and in particular it is
idempotent for equal arguments. -/
theorem C9_last_write_wins (mem : Mem) (base m1 m2 : Nat) :
    illusory0x0_moonbit_set_array_header
        (illusory0x0_moonbit_set_array_header mem base m1) base m2 =
      illusory0x0_moonbit_set_array_header mem base m2 ∧
    illusory0x0_moonbit_set_array_header
        (illusory0x0_moonbit_set_array_header mem base m2) base m2 =
      illusory0x0_moonbit_set_array_header mem base m2 := by
  constructor <;>
    · funext a
      simp only [illusory0x0_moonbit_set_array_header]
      split_ifs <;> rfl

/-- C10: passing `make_array_header`'s `int32` result as `set_array_header`'s
`uint32` `meta` argument preserves the 32-bit pattern exactly — the signed
result reinterpreted modulo `2^32` is the packed value `encode` produced. -/
theorem C10_signedness_consistency (k s l : Int) (p : Nat)
    (h : encode k s l = .ok p) :
    illusory0x0_moonbit_make_array_header k s l = .ok (int32OfNat p) ∧
    uint32OfInt32 (int32OfNat p) = p := by
  have hlt := encode_ok_lt h
  constructor
  · unfold illusory0x0_moonbit_make_array_header
    rw [h]
    rfl
  · unfold uint32OfInt32 int32OfNat
    split <;> omega

theorem C10_signedness_consistency_witness :
    illusory0x0_moonbit_make_array_header 2 3 5 = .ok (int32OfNat 11010) ∧
    uint32OfInt32 (int32OfNat 11010) = 11010 :=
  C10_signedness_consistency 2 3 5 11010 (by rfl)

end StringOfBytes
